import Mathlib

/-!
# Verification of the hyperparameter-search core

Shallow embedding of `examples/hyperparam/search_hyperopt.py`: the trial
evaluator `eval` (launch, metric fetch, null-loss capping, failure fallback,
results-log append), the aggregation loop of `train` that scans the results
log for the minimum validation loss, and the surrounding `train` pipeline
(baseline evaluation with `math.inf` caps followed by the budgeted search).

Python floats are modelled as rationals extended with `⊤` for `math.inf`
(`WithTop ℚ`); the results file is modelled as the list of appended records,
with the serialised text form treated separately (`recordLine`,
`bestRunLine`).  The decimal rendering of a finite float is abstracted as a
function parameter `showQ : ℚ → String`; the rendering of `math.inf` as
`"inf"` and of Python `None` as `"None"` is concrete, matching `str()`.
-/

namespace SearchHyperopt

/-- A loss value: a Python float, modelled as a rational, or `⊤` for
`math.inf` (the script introduces `math.inf` as the initial caps and as the
initial running minimum of the aggregation loop). -/
abbrev Loss : Type := WithTop ℚ

/-- `(train_loss, validation_loss, test_loss)` — the three metrics of one
trial (`train_<metric>`, `val_<metric>`, `test_<metric>` in the script). -/
structure LossTriple where
  train : Loss
  valid : Loss
  test : Loss
  deriving DecidableEq

/-- One line of the results log: the run id of the trial together with the
recorded losses (`"{runId} {train} {val} {test}\n"` in the script). -/
structure ResultRecord where
  job_id : String
  losses : LossTriple
  deriving DecidableEq

/-- Terminal outcome of the external training job launched for one trial:
`run_id` is `p.run_id`, `success` is the value of `p.wait()`, and `metrics`
are the values the tracking backend returns for the three metric names when
the job succeeded (they are never read on the failure path). -/
structure JobOutcome where
  run_id : String
  success : Bool
  metrics : LossTriple
  deriving DecidableEq

/-- Loss normalisation, from the body of `eval`: on the success path each
loss is capped at the null-model loss (`min(null_x_loss, get_metric(...))`),
and on the failure path (`raw = none`) the null losses are returned
unchanged ("run failed => return null loss"). -/
def normalize (raw : Option LossTriple) (nulls : LossTriple) : LossTriple :=
  match raw with
  | some t => ⟨min nulls.train t.train, min nulls.valid t.valid, min nulls.test t.test⟩
  | none => nulls

/-- The `ResultRecord` that one call of `eval` appends to the results file
for the given job outcome. -/
def evalRecord (nulls : LossTriple) (job : JobOutcome) : ResultRecord :=
  ⟨job.run_id, normalize (if job.success then some job.metrics else none) nulls⟩

/-- Observable effects of one call of `eval`: the normalised losses (also
logged as metrics on the outer run), the results file after the append,
the run id explicitly terminated as FAILED (if any), and the value returned
to the caller (the validation loss; with `return_all` the full triple
`losses` is returned instead). -/
structure EvalOut where
  losses : LossTriple
  log : List ResultRecord
  terminatedFailed : Option String
  ret : Loss
  deriving DecidableEq

/-- One call of the trial evaluator `eval` built by `new_eval`, given the
outcome of the external job it launched and the current contents of the
results file.  Mirrors lines 94–126 of the script: on `p.wait()` success the
fetched metrics are capped at the null losses; otherwise the tracked run is
set to FAILED and the null losses are used; in both cases one line is
appended to the results file and the validation loss is returned. -/
def runEval (nulls : LossTriple) (job : JobOutcome) (log : List ResultRecord) : EvalOut :=
  { losses := normalize (if job.success then some job.metrics else none) nulls
    log := log ++ [evalRecord nulls job]
    terminatedFailed := if job.success then none else some job.run_id
    ret := (normalize (if job.success then some job.metrics else none) nulls).valid }

/-- Serialised form of one results-file line, from
`"{runId} {train} {val} {test}\n"`: four space-delimited fields followed by
a newline.  `showQ` abstracts Python's decimal rendering of a finite float. -/
def showLoss (showQ : ℚ → String) (x : Loss) : String :=
  match x with
  | ⊤ => "inf"
  | (q : ℚ) => showQ q

/-- The exact text `eval` appends for a record. -/
def recordLine (showQ : ℚ → String) (r : ResultRecord) : String :=
  r.job_id ++ " " ++ showLoss showQ r.losses.train ++ " " ++ showLoss showQ r.losses.valid
    ++ " " ++ showLoss showQ r.losses.test ++ "\n"

/-- State of the aggregation loop of `train` (lines 154–168):
`best_val_train`, `best_val_valid`, `best_val_test`, `best_run`. -/
structure AggState where
  best_train : Loss
  best_valid : Loss
  best_test : Loss
  best_run : Option String
  deriving DecidableEq

/-- Initial aggregation state: the three running losses start at `math.inf`
and `best_run` starts at Python `None`. -/
def initState : AggState := ⟨⊤, ⊤, ⊤, none⟩

/-- One iteration of the aggregation loop: `if val < best_val_valid:` update
all four variables, else keep the state. -/
def aggStep (s : AggState) (r : ResultRecord) : AggState :=
  if r.losses.valid < s.best_valid then
    ⟨r.losses.train, r.losses.valid, r.losses.test, some r.job_id⟩
  else s

/-- The aggregation pass of `train`: a single left-to-right scan of the
results-file records starting from `initState`. -/
def aggregate (log : List ResultRecord) : AggState :=
  log.foldl aggStep initState

/-- One read-only aggregation pass: the result together with the (unchanged)
results log, modelling that reading the file does not modify it. -/
def aggregatePass (log : List ResultRecord) : AggState × List ResultRecord :=
  (aggregate log, log)

/-- The single line of `best_run.txt`, from
`"{run_id} {val}\n".format(run_id=best_run, val=best_val_valid)`: Python
renders `None` as `"None"` and `math.inf` as `"inf"`. -/
def bestRunLine (showQ : ℚ → String) (s : AggState) : String :=
  (match s.best_run with
   | some id => id
   | none => "None") ++ " " ++ showLoss showQ s.best_valid ++ "\n"

/-- Modelled from the spec: the Search Driver of §4.5.  The script delegates
the budget loop to `hyperopt.fmin` (an external library, not part of this
repository); per the spec the driver "runs exactly `budget` evaluations",
each one a call of the trial evaluator, here with the `i`-th call observing
the `i`-th external job outcome.  Returns the results file and the number of
evaluator calls made. -/
def searchDriverAux (nulls : LossTriple) (jobs : ℕ → JobOutcome) :
    ℕ → ℕ → List ResultRecord → List ResultRecord × ℕ
  | _, 0, log => (log, 0)
  | i, n + 1, log =>
    let rest := searchDriverAux nulls jobs (i + 1) n (runEval nulls (jobs i) log).log
    (rest.1, rest.2 + 1)

/-- Modelled from the spec: `fmin(fn=new_eval(...), ..., max_evals=budget)`
starting from the first candidate. -/
def searchDriver (nulls : LossTriple) (jobs : ℕ → JobOutcome) (budget : ℕ)
    (log : List ResultRecord) : List ResultRecord × ℕ :=
  searchDriverAux nulls jobs 0 budget log

/-- Observable result of the whole `train` pipeline: the baseline (null)
losses, the final results file, the number of evaluator calls made by the
search driver (the baseline call is separate), and the aggregation result. -/
structure TrainResult where
  nulls : LossTriple
  log : List ResultRecord
  driverEvalCalls : ℕ
  agg : AggState
  deriving DecidableEq

/-- The `train` pipeline (lines 135–168): evaluate the null model first with
all three caps at `math.inf` on an empty results file, then run the budgeted
search with the measured null losses as caps, then aggregate the results
file.  `baseJob` is the outcome of the zero-epoch run and `jobs` those of
the budgeted trials. -/
def trainPipeline (baseJob : JobOutcome) (jobs : ℕ → JobOutcome) (budget : ℕ) : TrainResult :=
  { nulls := (runEval ⟨⊤, ⊤, ⊤⟩ baseJob []).losses
    log := (searchDriver (runEval ⟨⊤, ⊤, ⊤⟩ baseJob []).losses jobs budget
      (runEval ⟨⊤, ⊤, ⊤⟩ baseJob []).log).1
    driverEvalCalls := (searchDriver (runEval ⟨⊤, ⊤, ⊤⟩ baseJob []).losses jobs budget
      (runEval ⟨⊤, ⊤, ⊤⟩ baseJob []).log).2
    agg := aggregate (searchDriver (runEval ⟨⊤, ⊤, ⊤⟩ baseJob []).losses jobs budget
      (runEval ⟨⊤, ⊤, ⊤⟩ baseJob []).log).1 }

/-- A successful zero-epoch baseline job used in concrete instances. -/
def demoBase : JobOutcome :=
  ⟨"b0", true, ⟨((1 : ℚ) : Loss), ((2 : ℚ) : Loss), ((3 : ℚ) : Loss)⟩⟩

/-- A constant stream of successful trial jobs used in concrete instances. -/
def demoJobs : ℕ → JobOutcome :=
  fun _ => ⟨"t0", true, ⟨((2 : ℚ) : Loss), ((3 : ℚ) : Loss), ((4 : ℚ) : Loss)⟩⟩

/-- A trial job whose external run reports FAILED, used in concrete
instances. -/
def demoFail : JobOutcome :=
  ⟨"f0", false, ⟨((9 : ℚ) : Loss), ((9 : ℚ) : Loss), ((9 : ℚ) : Loss)⟩⟩

/-- A finite baseline triple used in concrete instances. -/
def demoNulls : LossTriple := ⟨((1 : ℚ) : Loss), ((1 : ℚ) : Loss), ((1 : ℚ) : Loss)⟩

/-- The results log of Scenario E: validation losses 0.8, 0.5, 0.5. -/
def scenarioE : List ResultRecord :=
  [⟨"r1", ⟨((1 : ℚ) : Loss), ((mkRat 4 5 : ℚ) : Loss), ((1 : ℚ) : Loss)⟩⟩,
   ⟨"r2", ⟨((1 : ℚ) : Loss), ((mkRat 1 2 : ℚ) : Loss), ((1 : ℚ) : Loss)⟩⟩,
   ⟨"r3", ⟨((1 : ℚ) : Loss), ((mkRat 1 2 : ℚ) : Loss), ((1 : ℚ) : Loss)⟩⟩]

/-! ## Helper lemmas -/

/-- The normalised validation loss never exceeds the null validation loss:
on the success path it is `min nulls.valid _`, on the failure path it is
`nulls.valid` itself. -/
theorem normalize_valid_le :
    ∀ (raw : Option LossTriple) (nulls : LossTriple), (normalize raw nulls).valid ≤ nulls.valid
  | none, _ => le_refl _
  | some _, _ => min_le_left _ _

/-- The record `eval` appends obeys the same bound. -/
theorem evalRecord_valid_le (nulls : LossTriple) (job : JobOutcome) :
    (evalRecord nulls job).losses.valid ≤ nulls.valid :=
  normalize_valid_le _ _

/-- Capping at `math.inf` is no cap: normalising a present triple against
`(⊤, ⊤, ⊤)` returns the raw triple unchanged. -/
theorem normalize_top_eq (t : LossTriple) : normalize (some t) ⟨⊤, ⊤, ⊤⟩ = t := by
  cases t with
  | mk a b c =>
      simp only [normalize, LossTriple.mk.injEq]
      exact ⟨min_eq_right le_top, min_eq_right le_top, min_eq_right le_top⟩

/-- If no record of `log` beats the running minimum of `s`, the aggregation
loop leaves `s` unchanged. -/
theorem foldl_aggStep_noBeat (log : List ResultRecord) : ∀ s : AggState,
    (∀ x ∈ log, ¬ x.losses.valid < s.best_valid) → log.foldl aggStep s = s := by
  induction log with
  | nil => intro s _; rfl
  | cons a tl ih =>
      intro s h
      have ha : aggStep s a = s := by
        unfold aggStep
        exact if_neg (h a (List.mem_cons_self a tl))
      rw [List.foldl_cons, ha]
      exact ih s fun x hx => h x (List.mem_cons_of_mem a hx)

/-- Main characterisation of the aggregation loop: as long as some record
beats the running minimum, the final state is exactly the earliest record of
the log whose validation loss is minimal (records before it are strictly
worse, every record is at least as large). -/
theorem foldl_aggStep_firstMin (log : List ResultRecord) : ∀ s : AggState,
    (∃ x ∈ log, x.losses.valid < s.best_valid) →
    ∃ l₁ r l₂, log = l₁ ++ r :: l₂
      ∧ (∀ x ∈ l₁, r.losses.valid < x.losses.valid)
      ∧ (∀ x ∈ log, r.losses.valid ≤ x.losses.valid)
      ∧ r.losses.valid < s.best_valid
      ∧ log.foldl aggStep s =
          ⟨r.losses.train, r.losses.valid, r.losses.test, some r.job_id⟩ := by
  induction log with
  | nil =>
      rintro s ⟨x, hx, _⟩
      exact absurd hx (List.not_mem_nil x)
  | cons a tl ih =>
      intro s hex
      by_cases ha : a.losses.valid < s.best_valid
      · have hstep : aggStep s a =
            ⟨a.losses.train, a.losses.valid, a.losses.test, some a.job_id⟩ := by
          unfold aggStep
          exact if_pos ha
        by_cases hb : ∃ x ∈ tl, x.losses.valid < a.losses.valid
        · obtain ⟨l₁, r, l₂, heq, hearly, hmin, hlt, hfold⟩ :=
            ih (aggStep s a) (by simpa [hstep] using hb)
          have hra : r.losses.valid < a.losses.valid := by simpa [hstep] using hlt
          refine ⟨a :: l₁, r, l₂, by rw [heq]; rfl, ?_, ?_, lt_trans hra ha, ?_⟩
          · intro x hx
            rcases List.mem_cons.mp hx with h1 | h1
            · subst h1; exact hra
            · exact hearly x h1
          · intro x hx
            rcases List.mem_cons.mp hx with h1 | h1
            · subst h1; exact le_of_lt hra
            · exact hmin x h1
          · rw [List.foldl_cons]; exact hfold
        · push_neg at hb
          refine ⟨[], a, tl, rfl, ?_, ?_, ha, ?_⟩
          · intro x hx
            exact absurd hx (List.not_mem_nil x)
          · intro x hx
            rcases List.mem_cons.mp hx with h1 | h1
            · subst h1; exact le_refl _
            · exact hb x h1
          · have hno : ∀ x ∈ tl, ¬ x.losses.valid < (aggStep s a).best_valid := by
              intro x hx
              rw [hstep]
              exact not_lt.mpr (hb x hx)
            rw [List.foldl_cons, foldl_aggStep_noBeat tl (aggStep s a) hno, hstep]
      · have hstep : aggStep s a = s := by
          unfold aggStep
          exact if_neg ha
        have hex' : ∃ x ∈ tl, x.losses.valid < s.best_valid := by
          obtain ⟨x, hx, hxlt⟩ := hex
          rcases List.mem_cons.mp hx with h1 | h1
          · subst h1; exact absurd hxlt ha
          · exact ⟨x, h1, hxlt⟩
        obtain ⟨l₁, r, l₂, heq, hearly, hmin, hlt, hfold⟩ := ih s hex'
        have hra : r.losses.valid < a.losses.valid := lt_of_lt_of_le hlt (not_lt.mp ha)
        refine ⟨a :: l₁, r, l₂, by rw [heq]; rfl, ?_, ?_, hlt, ?_⟩
        · intro x hx
          rcases List.mem_cons.mp hx with h1 | h1
          · subst h1; exact hra
          · exact hearly x h1
        · intro x hx
          rcases List.mem_cons.mp hx with h1 | h1
          · subst h1; exact le_of_lt hra
          · exact hmin x h1
        · rw [List.foldl_cons, hstep]; exact hfold

/-- The driver appends exactly `budget` records after the initial log, each
with validation loss at most the null validation loss. -/
theorem searchDriverAux_log (nulls : LossTriple) (jobs : ℕ → JobOutcome) :
    ∀ (N i : ℕ) (log : List ResultRecord),
      ∃ tail, (searchDriverAux nulls jobs i N log).1 = log ++ tail
        ∧ tail.length = N
        ∧ ∀ x ∈ tail, x.losses.valid ≤ nulls.valid := by
  intro N
  induction N with
  | zero =>
      intro i log
      refine ⟨[], by simp [searchDriverAux], rfl, ?_⟩
      intro x hx
      exact absurd hx (List.not_mem_nil x)
  | succ n ih =>
      intro i log
      obtain ⟨tail, h1, h2, h3⟩ := ih (i + 1) ((runEval nulls (jobs i) log).log)
      refine ⟨evalRecord nulls (jobs i) :: tail, ?_, by simp [h2], ?_⟩
      · have hstep : (searchDriverAux nulls jobs i (n + 1) log).1
            = (searchDriverAux nulls jobs (i + 1) n ((runEval nulls (jobs i) log).log)).1 := rfl
        have hlog : (runEval nulls (jobs i) log).log
            = log ++ [evalRecord nulls (jobs i)] := rfl
        rw [hstep, h1, hlog, List.append_assoc]
        rfl
      · intro x hx
        rcases List.mem_cons.mp hx with h1x | h1x
        · subst h1x
          exact evalRecord_valid_le nulls (jobs i)
        · exact h3 x h1x

/-- The driver makes exactly `budget` evaluator calls. -/
theorem searchDriverAux_count (nulls : LossTriple) (jobs : ℕ → JobOutcome) :
    ∀ (N i : ℕ) (log : List ResultRecord), (searchDriverAux nulls jobs i N log).2 = N := by
  intro N
  induction N with
  | zero => intro i log; rfl
  | succ n ih =>
      intro i log
      show (searchDriverAux nulls jobs (i + 1) n ((runEval nulls (jobs i) log).log)).2 + 1
          = n + 1
      rw [ih]

/-! ## Claim theorems -/

/-- C1 (amended): for every results log containing at least one record with
finite validation loss (below the initial running minimum `math.inf`), the
single scan of the aggregation loop returns the job id and the full
`(train, validation, test)` triple of the earliest record attaining the
minimal validation loss: the log splits as `l₁ ++ r :: l₂` where every
record of `l₁` is strictly worse than `r`, every record of the log is at
least as large as `r`, and the final state carries exactly `r`'s triple and
job id. -/
theorem aggregate_first_min (log : List ResultRecord)
    (h : ∃ x ∈ log, x.losses.valid < ⊤) :
    ∃ l₁ r l₂, log = l₁ ++ r :: l₂
      ∧ (∀ x ∈ l₁, r.losses.valid < x.losses.valid)
      ∧ (∀ x ∈ log, r.losses.valid ≤ x.losses.valid)
      ∧ aggregate log = ⟨r.losses.train, r.losses.valid, r.losses.test, some r.job_id⟩ := by
  obtain ⟨l₁, r, l₂, heq, hearly, hmin, _, hfold⟩ :=
    foldl_aggStep_firstMin log initState (by simpa [initState] using h)
  exact ⟨l₁, r, l₂, heq, hearly, hmin, hfold⟩

/-- C1 witness: Scenario E — validation losses (0.8, 0.5, 0.5) select r2,
the first record attaining the minimum, not r3. -/
theorem aggregate_first_min_witness :
    (∃ x ∈ scenarioE, x.losses.valid < ⊤)
    ∧ (aggregate scenarioE).best_run = some ("r2")
    ∧ (∃ l₁ r l₂, scenarioE = l₁ ++ r :: l₂
        ∧ (∀ x ∈ l₁, r.losses.valid < x.losses.valid)
        ∧ (∀ x ∈ scenarioE, r.losses.valid ≤ x.losses.valid)
        ∧ aggregate scenarioE
            = ⟨r.losses.train, r.losses.valid, r.losses.test, some r.job_id⟩) :=
  ⟨by decide, by decide, aggregate_first_min scenarioE (by decide)⟩

/-- C1 counterexample: the claim as stated fails on a non-empty log all of
whose validation losses are `math.inf` (reachable when the baseline run and
a trial both fail): the unique — hence minimal — record is `r1`, but the
loop's strict `<` test against the initial `math.inf` never fires, so
`best_run` remains Python `None` instead of r1's job id. -/
theorem aggregate_first_min_counterexample :
    (aggregate [⟨"r1", ⟨⊤, ⊤, ⊤⟩⟩]).best_run = none
    ∧ (aggregate [⟨"r1", ⟨⊤, ⊤, ⊤⟩⟩]).best_run ≠ some ("r1") :=
  ⟨by decide, by decide⟩

/-- C2 counterexample: on a results log with zero records, aggregation does
not fail — the loop body never runs, the state stays at its initial value,
and `train` still writes the best-run artifact, whose single line reads
`"None inf\n"`.  This contradicts the claimed fatal error and the claim
that no best-run artifact is produced. -/
theorem aggregate_empty_counterexample :
    aggregate ([] : List ResultRecord) = initState
    ∧ (aggregate ([] : List ResultRecord)).best_run = none
    ∧ bestRunLine (fun q : ℚ => toString q) (aggregate ([] : List ResultRecord))
        = "None inf\n" :=
  ⟨rfl, rfl, rfl⟩

/-- C2 (amended): if no record of the results log has validation loss below
`math.inf` — in particular if the log is empty — aggregation completes
silently with the initial state (`best_run = None`,
`best_val_valid = math.inf`) and the best-run artifact is still written,
containing the line `"None inf\n"`; no error is surfaced. -/
theorem aggregate_no_finite_best (log : List ResultRecord)
    (h : ∀ x ∈ log, ¬ x.losses.valid < ⊤) :
    aggregate log = initState
    ∧ (aggregate log).best_run = none
    ∧ bestRunLine (fun q : ℚ => toString q) (aggregate log) = "None inf\n" := by
  have h0 : aggregate log = initState :=
    foldl_aggStep_noBeat log initState (by simpa [initState] using h)
  exact ⟨h0, by rw [h0]; rfl, by rw [h0]; rfl⟩

/-- C2 witness: the amended claim at the empty log. -/
theorem aggregate_no_finite_best_witness :
    (∀ x ∈ ([] : List ResultRecord), ¬ x.losses.valid < ⊤)
    ∧ ((aggregate ([] : List ResultRecord)).best_run = none
       ∧ bestRunLine (fun q : ℚ => toString q) (aggregate ([] : List ResultRecord))
           = "None inf\n") :=
  ⟨by decide, (aggregate_no_finite_best [] (by decide)).2.1,
    (aggregate_no_finite_best [] (by decide)).2.2⟩

/-- C3 counterexample: the zero-epoch baseline evaluation calls the very
same `eval` closure, whose append to the results file is unconditional, so
its record IS in the log consumed by the final aggregation.  Concretely,
with a successful baseline job `b0` reporting (1, 2, 3) and budget 1, the
aggregated log is `[b0-record, t0-record]` — the baseline record is there,
contradicting the claim that it is not appended. -/
theorem baseline_appended_counterexample :
    (trainPipeline demoBase demoJobs 1).log
        = [⟨"b0", ⟨((1 : ℚ) : Loss), ((2 : ℚ) : Loss), ((3 : ℚ) : Loss)⟩⟩,
           ⟨"t0", ⟨((1 : ℚ) : Loss), ((2 : ℚ) : Loss), ((3 : ℚ) : Loss)⟩⟩]
    ∧ (⟨"b0", ⟨((1 : ℚ) : Loss), ((2 : ℚ) : Loss), ((3 : ℚ) : Loss)⟩⟩ : ResultRecord)
        ∈ (trainPipeline demoBase demoJobs 1).log :=
  ⟨by decide, by decide⟩

/-- C3 (amended): the zero-epoch baseline evaluation appends a record to the
same results log the final aggregation consumes, exactly like budgeted
trials: for every baseline job and budget `N`, the aggregated log is the
baseline's record (its raw metrics, since the caps are `math.inf`) followed
by the `N` records of the budgeted trials. -/
theorem pipeline_baseline_first (baseJob : JobOutcome) (jobs : ℕ → JobOutcome) (N : ℕ) :
    ∃ tail, (trainPipeline baseJob jobs N).log = evalRecord ⟨⊤, ⊤, ⊤⟩ baseJob :: tail
      ∧ tail.length = N := by
  obtain ⟨tail, h1, h2, _⟩ :=
    searchDriverAux_log (runEval ⟨⊤, ⊤, ⊤⟩ baseJob []).losses jobs N 0
      [evalRecord ⟨⊤, ⊤, ⊤⟩ baseJob]
  exact ⟨tail, h1, h2⟩

/-- C4: normalisation is the element-wise minimum with the baseline when the
raw triple is present and the baseline itself when it is absent; hence its
validation loss never exceeds the baseline's, with equality exactly when
the raw triple is absent or its validation loss is at least the
baseline's. -/
theorem normalize_spec (raw : Option LossTriple) (b : LossTriple) :
    normalize none b = b
    ∧ (∀ t : LossTriple, normalize (some t) b
        = ⟨min b.train t.train, min b.valid t.valid, min b.test t.test⟩)
    ∧ (normalize raw b).valid ≤ b.valid
    ∧ ((normalize raw b).valid = b.valid
        ↔ raw = none ∨ ∃ t, raw = some t ∧ b.valid ≤ t.valid) := by
  refine ⟨rfl, fun t => rfl, normalize_valid_le raw b, ?_⟩
  cases raw with
  | none => simp [normalize]
  | some t => simp [normalize, min_eq_left_iff]

/-- C4 witness: the bound and the equality case at a concrete capped trial:
raw (2, 2, 2) against baseline (1, 1, 1). -/
theorem normalize_spec_witness :
    (normalize (some ⟨((2 : ℚ) : Loss), ((2 : ℚ) : Loss), ((2 : ℚ) : Loss)⟩)
        demoNulls).valid ≤ demoNulls.valid
    ∧ ((normalize (some ⟨((2 : ℚ) : Loss), ((2 : ℚ) : Loss), ((2 : ℚ) : Loss)⟩)
        demoNulls).valid = demoNulls.valid
        ↔ (some ⟨((2 : ℚ) : Loss), ((2 : ℚ) : Loss), ((2 : ℚ) : Loss)⟩
              : Option LossTriple) = none
          ∨ ∃ t, (some ⟨((2 : ℚ) : Loss), ((2 : ℚ) : Loss), ((2 : ℚ) : Loss)⟩
              : Option LossTriple) = some t ∧ demoNulls.valid ≤ t.valid) :=
  ⟨(normalize_spec (some ⟨((2 : ℚ) : Loss), ((2 : ℚ) : Loss), ((2 : ℚ) : Loss)⟩)
      demoNulls).2.2.1,
   (normalize_spec (some ⟨((2 : ℚ) : Loss), ((2 : ℚ) : Loss), ((2 : ℚ) : Loss)⟩)
      demoNulls).2.2.2⟩

/-- C5: when the external job reports FAILED (`p.wait()` false), the
evaluator scores the trial with the baseline (null) triple exactly, marks
the trial's tracked run terminated as FAILED, still appends a
`ResultRecord` carrying the baseline losses, and returns the validation
loss normally to the search driver — the evaluation is a total function,
no error is raised. -/
theorem eval_failed_trial (nulls : LossTriple) (job : JobOutcome)
    (log : List ResultRecord) (h : job.success = false) :
    (runEval nulls job log).losses = nulls
    ∧ (runEval nulls job log).terminatedFailed = some job.run_id
    ∧ (runEval nulls job log).log = log ++ [⟨job.run_id, nulls⟩]
    ∧ (runEval nulls job log).ret = nulls.valid := by
  refine ⟨?_, ?_, ?_, ?_⟩ <;> simp [runEval, evalRecord, normalize, h]

/-- C5 witness: a failed trial against the finite baseline (1, 1, 1). -/
theorem eval_failed_trial_witness :
    demoFail.success = false
    ∧ ((runEval demoNulls demoFail []).losses = demoNulls
       ∧ (runEval demoNulls demoFail []).terminatedFailed = some demoFail.run_id
       ∧ (runEval demoNulls demoFail []).log = [] ++ [⟨demoFail.run_id, demoNulls⟩]
       ∧ (runEval demoNulls demoFail []).ret = demoNulls.valid) :=
  ⟨by decide, eval_failed_trial demoNulls demoFail [] (by decide)⟩

/-- C6: every record the budgeted search driver ever appends to the results
log has validation loss at most the baseline's validation loss, whatever
values the external jobs reported — on the success path the loss is capped
by `min`, on the failure path it is the baseline itself.  Any record of the
driver's output log is either from the initial log or obeys the bound. -/
theorem driver_records_bounded (nulls : LossTriple) (jobs : ℕ → JobOutcome)
    (N i : ℕ) (log : List ResultRecord) (r : ResultRecord)
    (hr : r ∈ (searchDriverAux nulls jobs i N log).1) :
    r ∈ log ∨ r.losses.valid ≤ nulls.valid := by
  obtain ⟨tail, h1, _, h3⟩ := searchDriverAux_log nulls jobs N i log
  rw [h1] at hr
  rcases List.mem_append.mp hr with h | h
  · exact Or.inl h
  · exact Or.inr (h3 r h)

/-- C6 witness: the record of a one-trial search from an empty log, where
the external job reported losses above the baseline, is capped to the
baseline bound. -/
theorem driver_records_bounded_witness :
    (⟨"t0", demoNulls⟩ : ResultRecord) ∈ (searchDriverAux demoNulls demoJobs 0 1 []).1
    ∧ ((⟨"t0", demoNulls⟩ : ResultRecord) ∈ ([] : List ResultRecord)
       ∨ (⟨"t0", demoNulls⟩ : ResultRecord).losses.valid ≤ demoNulls.valid) :=
  ⟨by decide, driver_records_bounded demoNulls demoJobs 1 0 [] ⟨"t0", demoNulls⟩ (by decide)⟩

/-- C7: for every budget `N ≥ 1` the search driver makes exactly `N` calls
to the trial evaluator; the zero-epoch baseline evaluation happens
separately before the search, so with its one record the final results log
holds `N + 1` records, `N` of them from the driver's calls. -/
theorem pipeline_budget (baseJob : JobOutcome) (jobs : ℕ → JobOutcome) (N : ℕ)
    (h : 1 ≤ N) :
    (trainPipeline baseJob jobs N).driverEvalCalls = N
    ∧ (trainPipeline baseJob jobs N).log.length = N + 1 := by
  constructor
  · exact searchDriverAux_count (runEval ⟨⊤, ⊤, ⊤⟩ baseJob []).losses jobs N 0
      (runEval ⟨⊤, ⊤, ⊤⟩ baseJob []).log
  · obtain ⟨tail, h1, h2, _⟩ :=
      searchDriverAux_log (runEval ⟨⊤, ⊤, ⊤⟩ baseJob []).losses jobs N 0
        [evalRecord ⟨⊤, ⊤, ⊤⟩ baseJob]
    have hlog : (trainPipeline baseJob jobs N).log
        = [evalRecord ⟨⊤, ⊤, ⊤⟩ baseJob] ++ tail := h1
    rw [hlog, List.length_append, h2]
    simp [Nat.add_comm]

/-- C7 witness: budget 3 yields exactly 3 driver calls and 4 log records. -/
theorem pipeline_budget_witness :
    1 ≤ 3
    ∧ ((trainPipeline demoBase demoJobs 3).driverEvalCalls = 3
       ∧ (trainPipeline demoBase demoJobs 3).log.length = 3 + 1) :=
  ⟨by decide, pipeline_budget demoBase demoJobs 3 (by decide)⟩

/-- C8: every evaluated trial appends exactly one record to the results
log, and its serialised line is
`"<job_id> <train_loss> <val_loss> <test_loss>\n"`: provided the job id and
the rendered losses contain no space and no newline (true of run ids and of
default decimal float strings), the line has exactly three spaces — four
space-delimited fields — and exactly one newline, at the end. -/
theorem eval_appends_one_line (nulls : LossTriple) (job : JobOutcome)
    (log : List ResultRecord) (showQ : ℚ → String)
    (hq : ∀ q : ℚ, ' ' ∉ (showQ q).data ∧ '\n' ∉ (showQ q).data)
    (hid : ' ' ∉ job.run_id.data ∧ '\n' ∉ job.run_id.data) :
    (runEval nulls job log).log = log ++ [evalRecord nulls job]
    ∧ recordLine showQ (evalRecord nulls job)
        = job.run_id ++ " "
          ++ showLoss showQ (evalRecord nulls job).losses.train ++ " "
          ++ showLoss showQ (evalRecord nulls job).losses.valid ++ " "
          ++ showLoss showQ (evalRecord nulls job).losses.test ++ "\n"
    ∧ (recordLine showQ (evalRecord nulls job)).data.count ' ' = 3
    ∧ (recordLine showQ (evalRecord nulls job)).data.count '\n' = 1 := by
  have hpieces : ∀ x : Loss,
      ' ' ∉ (showLoss showQ x).data ∧ '\n' ∉ (showLoss showQ x).data := by
    intro x
    cases x with
    | none =>
        constructor
        · show ' ' ∉ ("inf").data
          decide
        · show '\n' ∉ ("inf").data
          decide
    | some q => exact hq q
  have h1 := hpieces (evalRecord nulls job).losses.train
  have h2 := hpieces (evalRecord nulls job).losses.valid
  have h3 := hpieces (evalRecord nulls job).losses.test
  have hjid : ' ' ∉ (evalRecord nulls job).job_id.data
      ∧ '\n' ∉ (evalRecord nulls job).job_id.data := hid
  refine ⟨rfl, rfl, ?_, ?_⟩
  · simp [recordLine, String.data_append, List.count_append,
      List.count_eq_zero.mpr hjid.1, List.count_eq_zero.mpr h1.1,
      List.count_eq_zero.mpr h2.1, List.count_eq_zero.mpr h3.1]
  · simp [recordLine, String.data_append, List.count_append,
      List.count_eq_zero.mpr hjid.2, List.count_eq_zero.mpr h1.2,
      List.count_eq_zero.mpr h2.2, List.count_eq_zero.mpr h3.2]

/-- C8 witness: a concrete renderer and the successful demo job. -/
theorem eval_appends_one_line_witness :
    (' ' ∉ demoBase.run_id.data ∧ '\n' ∉ demoBase.run_id.data)
    ∧ ((runEval demoNulls demoBase []).log = [] ++ [evalRecord demoNulls demoBase]
       ∧ (recordLine (fun _ : ℚ => ("0")) (evalRecord demoNulls demoBase)).data.count ' '
           = 3) := by
  have hq : ∀ q : ℚ, ' ' ∉ ((fun _ : ℚ => ("0")) q).data
      ∧ '\n' ∉ ((fun _ : ℚ => ("0")) q).data := by
    intro q
    constructor
    · show ' ' ∉ ("0").data
      decide
    · show '\n' ∉ ("0").data
      decide
  have hid : ' ' ∉ demoBase.run_id.data ∧ '\n' ∉ demoBase.run_id.data := by
    constructor <;> decide
  exact ⟨hid,
    (eval_appends_one_line demoNulls demoBase [] (fun _ : ℚ => ("0")) hq hid).1,
    (eval_appends_one_line demoNulls demoBase [] (fun _ : ℚ => ("0")) hq hid).2.2.1⟩

/-- C9: aggregation is a pure function of the results-log contents and the
scan leaves the log unmodified, so a second pass over the same log yields
the same `SearchOutcome` (same state, hence same job id and triple). -/
theorem aggregate_deterministic (log : List ResultRecord) :
    (aggregatePass (aggregatePass log).2).1 = (aggregatePass log).1
    ∧ (aggregatePass log).2 = log :=
  ⟨rfl, rfl⟩

/-- C10: the baseline evaluation runs the evaluator with all three caps at
`math.inf`: if the zero-epoch run succeeds, the baseline triple equals the
raw fetched metrics unchanged; if it reports FAILED, the baseline triple is
`(math.inf, math.inf, math.inf)`, and then every subsequent successful
trial's losses pass through normalisation uncapped. -/
theorem baseline_inf_caps (baseJob : JobOutcome) (log : List ResultRecord) :
    (baseJob.success = true → (runEval ⟨⊤, ⊤, ⊤⟩ baseJob log).losses = baseJob.metrics)
    ∧ (baseJob.success = false →
        (runEval ⟨⊤, ⊤, ⊤⟩ baseJob log).losses = ⟨⊤, ⊤, ⊤⟩
        ∧ ∀ (j : JobOutcome) (l : List ResultRecord), j.success = true →
            (runEval (runEval ⟨⊤, ⊤, ⊤⟩ baseJob log).losses j l).losses = j.metrics) := by
  constructor
  · intro h
    show normalize (if baseJob.success then some baseJob.metrics else none) ⟨⊤, ⊤, ⊤⟩
        = baseJob.metrics
    rw [h]
    exact normalize_top_eq baseJob.metrics
  · intro h
    have hbase : (runEval ⟨⊤, ⊤, ⊤⟩ baseJob log).losses = ⟨⊤, ⊤, ⊤⟩ := by
      show normalize (if baseJob.success then some baseJob.metrics else none) ⟨⊤, ⊤, ⊤⟩
          = ⟨⊤, ⊤, ⊤⟩
      rw [h]
      rfl
    refine ⟨hbase, ?_⟩
    intro j l hj
    rw [hbase]
    show normalize (if j.success then some j.metrics else none) ⟨⊤, ⊤, ⊤⟩ = j.metrics
    rw [hj]
    exact normalize_top_eq j.metrics

/-- C10 witness: the successful baseline keeps its raw metrics; the failed
baseline yields the all-`math.inf` triple, and a subsequent successful trial
is then not capped. -/
theorem baseline_inf_caps_witness :
    (demoBase.success = true
     ∧ (runEval ⟨⊤, ⊤, ⊤⟩ demoBase []).losses = demoBase.metrics)
    ∧ (demoFail.success = false
       ∧ (runEval ⟨⊤, ⊤, ⊤⟩ demoFail []).losses = ⟨⊤, ⊤, ⊤⟩
       ∧ (runEval (runEval ⟨⊤, ⊤, ⊤⟩ demoFail []).losses (demoJobs 0) []).losses
           = (demoJobs 0).metrics) :=
  ⟨⟨rfl, (baseline_inf_caps demoBase []).1 rfl⟩,
   ⟨rfl, ((baseline_inf_caps demoFail []).2 rfl).1,
    ((baseline_inf_caps demoFail []).2 rfl).2 (demoJobs 0) [] rfl⟩⟩

end SearchHyperopt
